import Mathlib

/-!
Shallow embedding of the dataset core of the gorse repository
(`src/core/data.go`) together with models of the `base` package types it
relies on (`SparseIdSet`, `SparseVector`) and the raw `Table`, whose Go
sources are not part of the slice; those are modelled from the
specification and from the struct shapes revealed by the test file.
Ratings (`float64` in Go) are embedded as exact rationals; Go maps are
embedded as association lists with unique keys and first-match lookup,
where a missing key yields the Go zero value.
-/

namespace Gorse

/-- First-match lookup in an association list, the embedding of a Go map
read `v, ok := m[k]`: `none` is `ok = false`, where Go hands back the zero
value of the value type. -/
def mapGet {β : Type} (m : List (Int × β)) (k : Int) : Option β :=
  match m with
  | [] => none
  | p :: rest => if p.1 = k then some p.2 else mapGet rest k

/-- Go map assignment `m[k] = v`: overwrite the binding when the key is
present, append a fresh binding otherwise. -/
def goMapInsert {β : Type} (m : List (Int × β)) (k : Int) (v : β) : List (Int × β) :=
  if m.any (fun p => p.1 = k) then
    m.map (fun p => if p.1 = k then (k, v) else p)
  else
    m ++ [(k, v)]

/-- Modelled from the spec: `base.SparseVector`, an append-only ordered list
of (dense index, rating) pairs. Field names `Indices`/`Values` are the ones
the test file constructs directly. -/
structure SparseVector where
  Indices : List Int
  Values : List ℚ
deriving Repr, DecidableEq

/-- The empty sparse vector, as produced by `base.NewSparseVector`. -/
def SparseVector.empty : SparseVector := ⟨[], []⟩

/-- Modelled from the spec: `SparseVector.Add` appends one (index, value)
pair; duplicates are retained, never merged. -/
def SparseVector.Add (v : SparseVector) (i : Int) (x : ℚ) : SparseVector :=
  ⟨v.Indices ++ [i], v.Values ++ [x]⟩

/-- The ordered (index, value) pairs of a sparse vector, the sequence that
`SparseVector.ForEach` visits. -/
def SparseVector.pairs (v : SparseVector) : List (Int × ℚ) :=
  v.Indices.zip v.Values

/-- Sum of the rating values stored in a sparse vector. -/
def SparseVector.valueSum (v : SparseVector) : ℚ :=
  v.Values.sum

/-- Modelled from the spec: `base.NewDenseSparseMatrix n` allocates `n`
fresh empty sparse vectors. -/
def NewDenseSparseMatrix (n : Nat) : List SparseVector :=
  List.replicate n SparseVector.empty

/-- Modelled from the spec: `base.SparseIdSet`, the bidirectional
sparse/dense identifier mapping. `DenseIds` is the Go map sparse → dense,
`SparseIds` the slice dense → sparse; field names are those the test file
constructs directly. -/
structure SparseIdSet where
  DenseIds : List (Int × Int)
  SparseIds : List Int
deriving Repr, DecidableEq

/-- Modelled from the spec: `base.NewSparseIdSet` starts empty. -/
def SparseIdSet.empty : SparseIdSet := ⟨[], []⟩

/-- Number of registered ids, `base.SparseIdSet.Len`. -/
def SparseIdSet.Len (s : SparseIdSet) : Nat :=
  s.SparseIds.length

/-- Modelled from the spec: `base.SparseIdSet.Add` registers an unseen
sparse id with the next sequential dense id and is a no-op on a known id. -/
def SparseIdSet.Add (s : SparseIdSet) (sparseId : Int) : SparseIdSet :=
  match mapGet s.DenseIds sparseId with
  | some _ => s
  | none => ⟨s.DenseIds ++ [(sparseId, (s.SparseIds.length : Int))], s.SparseIds ++ [sparseId]⟩

/-- Modelled from the spec: `base.SparseIdSet.ToDenseId` reads the Go map
`DenseIds[sparseId]`; an unregistered id silently yields the zero value 0. -/
def SparseIdSet.ToDenseId (s : SparseIdSet) (sparseId : Int) : Int :=
  (mapGet s.DenseIds sparseId).getD 0

/-- Modelled from the spec: `base.SparseIdSet.ToSparseId` indexes the slice
`SparseIds[denseId]`; the dense id must be in range (Go would panic
otherwise, the model totalizes with 0). -/
def SparseIdSet.ToSparseId (s : SparseIdSet) (denseId : Int) : Int :=
  s.SparseIds.getD denseId.toNat 0

/-- Modelled from the spec: the raw table, an ordered sequence of
(userId, itemId, rating) triples, as built by `core.NewDataTable` from
three parallel slices. -/
structure Table where
  records : List (Int × Int × ℚ)
deriving Repr, DecidableEq

/-- Modelled from the spec: `core.NewDataTable users items ratings` pairs
the three parallel slices positionally. -/
def NewDataTable (users items : List Int) (ratings : List ℚ) : Table :=
  ⟨users.zip (items.zip ratings)⟩

/-- Number of records, `Table.Len`. -/
def Table.Len (t : Table) : Nat :=
  t.records.length

/-- Positional access `Table.Get i`, returning (userId, itemId, rating). -/
def Table.Get (t : Table) (i : Nat) : Int × Int × ℚ :=
  t.records.getD i (0, 0, 0)

/-- Sum of all rating values in the raw table. -/
def Table.ratingSum (t : Table) : ℚ :=
  (t.records.map (fun r => r.2.2)).sum

/-- Modelled from the spec: `Table.Mean` is the arithmetic average of all
rating values. In Go this is a `float64` division producing the NaN
artifact on an empty table; NaN is embedded as `none`, a defined average
as `some`. -/
def Table.Mean (t : Table) : Option ℚ :=
  if t.records.length = 0 then none
  else some (t.ratingSum / (t.records.length : ℚ))

/-- The `core.DataSet` struct of `src/core/data.go`, with the embedded
`Table` as an explicit field. `GlobalMean` is an embedded Go float, so
`Option ℚ` with `none` for NaN. -/
structure DataSet where
  table : Table
  GlobalMean : Option ℚ
  DenseUserIds : List Int
  DenseItemIds : List Int
  DenseUserRatings : List SparseVector
  DenseItemRatings : List SparseVector
  UserIdSet : SparseIdSet
  ItemIdSet : SparseIdSet
deriving Repr, DecidableEq

/-- Go method promotion of the embedded table: `DataSet.Get`. -/
def DataSet.Get (d : DataSet) (i : Nat) : Int × Int × ℚ :=
  d.table.Get i

/-- Go method promotion of the embedded table: `DataSet.Len`. -/
def DataSet.Len (d : DataSet) : Nat :=
  d.table.Len

/-- The first `table.ForEach` loop of `core.NewDataSet`: register the user
and item ids of every record in order and record the resulting dense ids
positionally. Returns the two id sets and the two dense-id arrays. -/
def pass1 : List (Int × Int × ℚ) → SparseIdSet → SparseIdSet →
    SparseIdSet × SparseIdSet × List Int × List Int
  | [], us, is => (us, is, [], [])
  | r :: rest, us, is =>
    let us' := us.Add r.1
    let is' := is.Add r.2.1
    let f := pass1 rest us' is'
    (f.1, f.2.1, us'.ToDenseId r.1 :: f.2.2.1, is'.ToDenseId r.2.1 :: f.2.2.2)

/-- One record of the second `table.ForEach` loop of `core.NewDataSet`:
append `(itemDenseId, rating)` to the user's vector and
`(userDenseId, rating)` to the item's vector. -/
def pass2step (us is : SparseIdSet) (mats : List SparseVector × List SparseVector)
    (r : Int × Int × ℚ) : List SparseVector × List SparseVector :=
  let ud := (us.ToDenseId r.1).toNat
  let id := (is.ToDenseId r.2.1).toNat
  (mats.1.set ud ((mats.1.getD ud SparseVector.empty).Add (is.ToDenseId r.2.1) r.2.2),
   mats.2.set id ((mats.2.getD id SparseVector.empty).Add (us.ToDenseId r.1) r.2.2))

/-- The second `table.ForEach` loop of `core.NewDataSet`, populating the
two rating matrices record by record. -/
def pass2 (us is : SparseIdSet) : List (Int × Int × ℚ) →
    List SparseVector × List SparseVector → List SparseVector × List SparseVector
  | [], mats => mats
  | r :: rest, mats => pass2 us is rest (pass2step us is mats r)

/-- `core.NewDataSet` from `src/core/data.go`: store the table and its
mean, run the identifier-discovery pass, allocate the two matrices at
exactly the discovered sizes, then run the population pass. -/
def NewDataSet (table : Table) : DataSet :=
  let p := pass1 table.records SparseIdSet.empty SparseIdSet.empty
  let us := p.1
  let is := p.2.1
  let mats := pass2 us is table.records
    (NewDenseSparseMatrix us.Len, NewDenseSparseMatrix is.Len)
  { table := table
    GlobalMean := table.Mean
    DenseUserIds := p.2.2.1
    DenseItemIds := p.2.2.2
    DenseUserRatings := mats.1
    DenseItemRatings := mats.2
    UserIdSet := us
    ItemIdSet := is }

/-- `core.DataSet.UserCount`. -/
def DataSet.UserCount (d : DataSet) : Nat :=
  d.UserIdSet.Len

/-- `core.DataSet.ItemCount`. -/
def DataSet.ItemCount (d : DataSet) : Nat :=
  d.ItemIdSet.Len

/-- `core.DataSet.GetDense i`: the dense ids at position `i` together with
the rating taken from `Get i`. -/
def DataSet.GetDense (d : DataSet) (i : Nat) : Int × Int × ℚ :=
  (d.DenseUserIds.getD i 0, d.DenseItemIds.getD i 0, (d.Get i).2.2)

/-- `core.DataSet.GetUserRatingsSet`: convert the sparse user id to a dense
id, walk that user's vector in order, convert each dense item index back to
a sparse item id, and build the Go map item sparse id → rating. -/
def DataSet.GetUserRatingsSet (d : DataSet) (userId : Int) : List (Int × ℚ) :=
  let denseUserId := (d.UserIdSet.ToDenseId userId).toNat
  (d.DenseUserRatings.getD denseUserId SparseVector.empty).pairs.foldl
    (fun m p => goMapInsert m (d.ItemIdSet.ToSparseId p.1) p.2) []

/-- Whether the second character list starts with the first one. -/
def listStartsWith : List Char → List Char → Bool
  | [], _ => true
  | _ :: _, [] => false
  | p :: ps, c :: cs => p == c && listStartsWith ps cs

/-- Leftmost, non-overlapping splitting of a character list at occurrences
of a non-empty separator, the scan done by Go `strings.Split`. The fuel
argument only bounds the recursion (every step consumes at least one
character, so `cs.length` units always suffice); it keeps the function
structural so that it evaluates inside the kernel. -/
def goSplitAux (sep : List Char) : Nat → List Char → List (List Char)
  | 0, cs => [cs]
  | fuel + 1, cs =>
    match cs with
    | [] => [[]]
    | c :: rest =>
      if listStartsWith sep cs then
        [] :: goSplitAux sep fuel (cs.drop sep.length)
      else
        match goSplitAux sep fuel rest with
        | [] => [[c]]
        | f :: fs => (c :: f) :: fs

/-- Embedding of Go `strings.Split line sep` for a non-empty separator,
which is what every loader in the repository passes (the empty-separator
branch of Go, exploding into characters, is not modelled). -/
def goSplit (line sep : String) : List String :=
  if sep.data = [] then [line]
  else (goSplitAux sep.data line.data.length line.data).map (fun f => ⟨f⟩)

/-- Numeric value of a list of decimal digit characters. -/
def digitsToNat (ds : List Char) : Nat :=
  ds.foldl (fun n c => 10 * n + (c.toNat - 48)) 0

/-- The two kinds of error Go's `strconv` parse functions report: a
syntactically malformed number, or a well-formed number outside the
representable range. The functions return the error NEXT TO a value, and
the loader discards the error (`user, _ := strconv.Atoi(...)`), so the
value returned alongside an error is what gets recorded. -/
inductive ParseErr where
  | malformed
  | outOfRange
deriving Repr, DecidableEq

/-- Largest value of Go's 64-bit `int`. -/
def intMax64 : Int := 9223372036854775807

/-- Smallest value of Go's 64-bit `int`. -/
def intMin64 : Int := -9223372036854775808

/-- Embedding of Go `strconv.Atoi` (= `ParseInt(s, 10, 0)` on a 64-bit
platform): an optional sign followed by at least one decimal digit parses
to that integer; a value outside int64 yields the clamped extreme value
together with the range error; anything else yields 0 together with the
syntax error. -/
def goAtoi (s : String) : Int × Option ParseErr :=
  let p : Int × List Char :=
    match s.data with
    | '+' :: rest => (1, rest)
    | '-' :: rest => (-1, rest)
    | cs => (1, cs)
  if p.2 ≠ [] ∧ p.2.all Char.isDigit then
    let v : Int := p.1 * (digitsToNat p.2 : Int)
    if v > intMax64 then (intMax64, some ParseErr.outOfRange)
    else if v < intMin64 then (intMin64, some ParseErr.outOfRange)
    else (v, none)
  else (0, some ParseErr.malformed)

/-- A Go `float64` value produced by parsing: a finite value (float32
rounding abstracted to the exact rational) or one of the non-finite
values ±Inf/NaN, which the rational embedding does not distinguish. -/
inductive GoFloatVal where
  | finite (q : ℚ)
  | nonFinite
deriving Repr, DecidableEq

/-- The magnitude at which `ParseFloat(s, 32)` rounds a finite decimal up
to +Inf and reports a range error: the midpoint between MaxFloat32 and
2^128, i.e. 2^128 - 2^103, written as a literal so that it evaluates
without rational arithmetic. -/
def float32OverflowBound : ℚ := 340282356779733661637539395458142568448

/-- Unsigned mantissa of a decimal number: digits with at most one decimal
point and at least one digit overall. -/
def parseMantissa (m : List Char) : Option ℚ :=
  match m.splitOn '.' with
  | [ip] =>
    if ip ≠ [] ∧ ip.all Char.isDigit then some (digitsToNat ip : ℚ)
    else none
  | [ip, fp] =>
    if (ip ≠ [] ∨ fp ≠ []) ∧ ip.all Char.isDigit ∧ fp.all Char.isDigit then
      some ((digitsToNat ip : ℚ) + (digitsToNat fp : ℚ) / (10 : ℚ) ^ fp.length)
    else none
  | _ => none

/-- Signed decimal exponent: an optional sign then at least one digit. -/
def parseExpInt (ex : List Char) : Option Int :=
  let p : Bool × List Char :=
    match ex with
    | '+' :: rest => (false, rest)
    | '-' :: rest => (true, rest)
    | cs => (false, cs)
  if p.2 ≠ [] ∧ p.2.all Char.isDigit then
    some (if p.1 then -(digitsToNat p.2 : Int) else (digitsToNat p.2 : Int))
  else none

/-- Unsigned decimal number with an optional exponent part (the scrutinee
is already lower-cased, so `E` has become `e`). -/
def parseDecimal (ds : List Char) : Option ℚ :=
  match ds.splitOn 'e' with
  | [m] => parseMantissa m
  | [m, ex] =>
    match parseMantissa m, parseExpInt ex with
    | some q, some e => some (q * (10 : ℚ) ^ e)
    | _, _ => none
  | _ => none

/-- Embedding of Go `strconv.ParseFloat(s, 32)` with the grammar of the
strconv the repository was built against (decimal forms with optional
exponent, and the case-insensitive specials inf/infinity/nan; no hex
floats or digit-group underscores, which entered Go only in 1.13):
specials parse to a non-finite value with no error; a well-formed decimal
whose magnitude reaches the float32 overflow midpoint becomes ±Inf with
the range error; other well-formed decimals give their exact rational
value (float32 rounding abstracted, including extreme underflow, where Go
stores 0 and reports a discarded range error); everything else gives 0
with the syntax error. -/
def goParseFloat (s : String) : GoFloatVal × Option ParseErr :=
  let cs := s.data.map Char.toLower
  let p : Bool × List Char :=
    match cs with
    | '+' :: rest => (false, rest)
    | '-' :: rest => (true, rest)
    | rest => (false, rest)
  if p.2 = ['i', 'n', 'f'] ∨ p.2 = ['i', 'n', 'f', 'i', 'n', 'i', 't', 'y'] ∨
      p.2 = ['n', 'a', 'n'] then
    (GoFloatVal.nonFinite, none)
  else
    match parseDecimal p.2 with
    | none => (GoFloatVal.finite 0, some ParseErr.malformed)
    | some q =>
      if q ≥ float32OverflowBound then (GoFloatVal.nonFinite, some ParseErr.outOfRange)
      else (GoFloatVal.finite (if p.1 then -q else q), none)

/-- One iteration of the `LoadDataFromCSV` scanner loop over the
accumulator (headerPending, users, items, ratings): skip a pending header
line, skip a line with fewer than two fields, otherwise parse fields 0, 1
and 2 and append the record with each parse call's returned value, the
accompanying error being discarded (`user, _ := strconv.Atoi(...)`).
`none` embeds the Go index-out-of-range panic when a read field does not
exist. -/
def csvStep (sep : String) (acc : Bool × List Int × List Int × List GoFloatVal)
    (line : String) : Option (Bool × List Int × List Int × List GoFloatVal) :=
  if acc.1 then some (false, acc.2)
  else
    let fields := goSplit line sep
    if fields.length < 2 then some (false, acc.2)
    else
      match fields[0]?, fields[1]?, fields[2]? with
      | some f0, some f1, some f2 =>
        some (false,
          acc.2.1 ++ [(goAtoi f0).1],
          acc.2.2.1 ++ [(goAtoi f1).1],
          acc.2.2.2 ++ [(goParseFloat f2).1])
      | _, _, _ => none

/-- The full `LoadDataFromCSV` scanner loop over the lines of the file. -/
def csvLoop (sep : String) : List String → (Bool × List Int × List Int × List GoFloatVal) →
    Option (Bool × List Int × List Int × List GoFloatVal)
  | [], acc => some acc
  | line :: rest, acc =>
    match csvStep sep acc line with
    | some acc' => csvLoop sep rest acc'
    | none => none

/-- The scanned ratings as exact rationals when all of them are finite;
`none` when some rating is ±Inf/NaN, which the rational-valued table
cannot hold. -/
def finiteRatings : List GoFloatVal → Option (List ℚ)
  | [] => some []
  | GoFloatVal.finite q :: rest => (finiteRatings rest).map (fun l => q :: l)
  | GoFloatVal.nonFinite :: rest => none

/-- `core.LoadDataFromCSV` with the file reading abstracted to the list of
scanned lines: run the loop and build the data set from the three
accumulated slices. `none` embeds either a Go panic during the scan or a
scanned non-finite rating, with which the Go program would proceed but
which lies outside the rational-valued table embedding. -/
def LoadDataFromCSV (lines : List String) (sep : String) (hasHeader : Bool) :
    Option DataSet :=
  match csvLoop sep lines (hasHeader, [], [], []) with
  | none => none
  | some acc =>
    match finiteRatings acc.2.2.2 with
    | some rs => some (NewDataSet (NewDataTable acc.2.1 acc.2.2.1 rs))
    | none => none

/-- Registering a whole list of sparse ids in order, the shape both id
sets take during the first construction pass. -/
def addKeys (s : SparseIdSet) : List Int → SparseIdSet
  | [] => s
  | k :: rest => addKeys (s.Add k) rest

/-- Well-formedness of an id set: every registered dense id is a
non-negative index into the dense-to-sparse slice. -/
def SparseIdSet.WF (s : SparseIdSet) : Prop :=
  ∀ k v, mapGet s.DenseIds k = some v → 0 ≤ v ∧ v.toNat < s.SparseIds.length

theorem mapGet_append_of_some {β : Type} {m m' : List (Int × β)} {k : Int} {v : β}
    (h : mapGet m k = some v) : mapGet (m ++ m') k = some v := by
  induction m with
  | nil => simp [mapGet] at h
  | cons p rest ih =>
    by_cases hk : p.1 = k
    · simpa [mapGet, hk] using h
    · simp only [mapGet, hk, if_false] at h ⊢
      exact ih h

theorem mapGet_append_of_none {β : Type} {m m' : List (Int × β)} {k : Int}
    (h : mapGet m k = none) : mapGet (m ++ m') k = mapGet m' k := by
  induction m with
  | nil => simp [mapGet]
  | cons p rest ih =>
    by_cases hk : p.1 = k
    · simp [mapGet, hk] at h
    · simp only [mapGet, hk, if_false] at h ⊢
      exact ih h

theorem Add_eq_self_of_some {s : SparseIdSet} {k : Int} {w : Int}
    (hk : mapGet s.DenseIds k = some w) : s.Add k = s := by
  simp [SparseIdSet.Add, hk]

theorem Add_DenseIds_of_none {s : SparseIdSet} {k : Int}
    (hk : mapGet s.DenseIds k = none) :
    (s.Add k).DenseIds = s.DenseIds ++ [(k, (s.SparseIds.length : Int))] := by
  simp [SparseIdSet.Add, hk]

theorem Add_SparseIds_of_none {s : SparseIdSet} {k : Int}
    (hk : mapGet s.DenseIds k = none) :
    (s.Add k).SparseIds = s.SparseIds ++ [k] := by
  simp [SparseIdSet.Add, hk]

theorem mapGet_Add_stable {s : SparseIdSet} {k k' : Int} {v : Int}
    (h : mapGet s.DenseIds k = some v) : mapGet (s.Add k').DenseIds k = some v := by
  cases hk' : mapGet s.DenseIds k' with
  | some w => rw [Add_eq_self_of_some hk']; exact h
  | none => rw [Add_DenseIds_of_none hk']; exact mapGet_append_of_some h

theorem isSome_mapGet_Add_self (s : SparseIdSet) (k : Int) :
    (mapGet (s.Add k).DenseIds k).isSome := by
  cases hk : mapGet s.DenseIds k with
  | some w => rw [Add_eq_self_of_some hk, hk]; rfl
  | none => rw [Add_DenseIds_of_none hk, mapGet_append_of_none hk]; simp [mapGet]

theorem mapGet_addKeys_stable {s : SparseIdSet} {k : Int} {v : Int} :
    ∀ (ks : List Int), mapGet s.DenseIds k = some v →
      mapGet (addKeys s ks).DenseIds k = some v := by
  intro ks
  induction ks generalizing s with
  | nil => intro h; exact h
  | cons k' rest ih => intro h; exact ih (mapGet_Add_stable h)

theorem isSome_mapGet_addKeys_stable {s : SparseIdSet} {k : Int} (ks : List Int)
    (h : (mapGet s.DenseIds k).isSome) :
    (mapGet (addKeys s ks).DenseIds k).isSome := by
  rcases Option.isSome_iff_exists.mp h with ⟨v, hv⟩
  exact Option.isSome_iff_exists.mpr ⟨v, mapGet_addKeys_stable ks hv⟩

theorem isSome_mapGet_addKeys_of_mem {s : SparseIdSet} {k : Int} {ks : List Int}
    (h : k ∈ ks) : (mapGet (addKeys s ks).DenseIds k).isSome := by
  induction ks generalizing s with
  | nil => cases h
  | cons k' rest ih =>
    rcases List.mem_cons.mp h with rfl | hmem
    · exact isSome_mapGet_addKeys_stable rest (isSome_mapGet_Add_self s k)
    · exact ih hmem

theorem ToDenseId_addKeys_of_isSome {s : SparseIdSet} {k : Int} (ks : List Int)
    (h : (mapGet s.DenseIds k).isSome) :
    (addKeys s ks).ToDenseId k = s.ToDenseId k := by
  rcases Option.isSome_iff_exists.mp h with ⟨v, hv⟩
  unfold SparseIdSet.ToDenseId
  rw [hv, mapGet_addKeys_stable ks hv]

theorem WF_empty : SparseIdSet.empty.WF := by
  intro k v h
  simp [SparseIdSet.empty, mapGet] at h

theorem WF_Add {s : SparseIdSet} (h : s.WF) (k : Int) : (s.Add k).WF := by
  intro k' v hv
  cases hk : mapGet s.DenseIds k with
  | some w =>
    rw [Add_eq_self_of_some hk] at hv ⊢
    exact h k' v hv
  | none =>
    rw [Add_DenseIds_of_none hk] at hv
    rw [Add_SparseIds_of_none hk, List.length_append]
    by_cases hsame : mapGet s.DenseIds k' = none
    · rw [mapGet_append_of_none hsame] at hv
      simp only [mapGet] at hv
      by_cases hkk : k = k'
      · rw [if_pos hkk] at hv
        obtain rfl := Option.some.inj hv
        refine ⟨Int.ofNat_nonneg _, ?_⟩
        simp only [Int.toNat_ofNat, List.length_cons, List.length_nil]
        omega
      · rw [if_neg hkk] at hv
        cases hv
    · rcases Option.ne_none_iff_exists'.mp hsame with ⟨w, hw⟩
      rw [mapGet_append_of_some hw] at hv
      obtain rfl := Option.some.inj hv
      rcases h k' w hw with ⟨h1, h2⟩
      exact ⟨h1, by simp only [List.length_cons, List.length_nil]; omega⟩

theorem WF_addKeys {s : SparseIdSet} (h : s.WF) (ks : List Int) :
    (addKeys s ks).WF := by
  induction ks generalizing s with
  | nil => exact h
  | cons k rest ih => exact ih (WF_Add h k)

theorem pass1_userSet (l : List (Int × Int × ℚ)) (us is : SparseIdSet) :
    (pass1 l us is).1 = addKeys us (l.map (fun r => r.1)) := by
  induction l generalizing us is with
  | nil => rfl
  | cons r rest ih => simpa [pass1, addKeys] using ih (us.Add r.1) (is.Add r.2.1)

theorem pass1_itemSet (l : List (Int × Int × ℚ)) (us is : SparseIdSet) :
    (pass1 l us is).2.1 = addKeys is (l.map (fun r => r.2.1)) := by
  induction l generalizing us is with
  | nil => rfl
  | cons r rest ih => simpa [pass1, addKeys] using ih (us.Add r.1) (is.Add r.2.1)

theorem pass1_DenseUserIds (l : List (Int × Int × ℚ)) (us is : SparseIdSet) :
    (pass1 l us is).2.2.1 = l.map (fun r => (pass1 l us is).1.ToDenseId r.1) := by
  induction l generalizing us is with
  | nil => rfl
  | cons r rest ih =>
    simp only [pass1, List.map_cons]
    rw [ih (us.Add r.1) (is.Add r.2.1)]
    congr 1
    rw [pass1_userSet]
    exact (ToDenseId_addKeys_of_isSome _ (isSome_mapGet_Add_self us r.1)).symm

theorem pass1_DenseItemIds (l : List (Int × Int × ℚ)) (us is : SparseIdSet) :
    (pass1 l us is).2.2.2 = l.map (fun r => (pass1 l us is).2.1.ToDenseId r.2.1) := by
  induction l generalizing us is with
  | nil => rfl
  | cons r rest ih =>
    simp only [pass1, List.map_cons]
    rw [ih (us.Add r.1) (is.Add r.2.1)]
    congr 1
    rw [pass1_itemSet]
    exact (ToDenseId_addKeys_of_isSome _ (isSome_mapGet_Add_self is r.2.1)).symm

/-- All sparse vectors of a matrix are balanced: as many indices as
values. Construction only ever appends one of each, so this invariant
holds for every matrix `NewDataSet` builds. -/
def MatWF (m : List SparseVector) : Prop :=
  ∀ v ∈ m, v.Indices.length = v.Values.length

/-- Total rating mass stored in a matrix of sparse vectors. -/
def matSum (m : List SparseVector) : ℚ :=
  (m.map SparseVector.valueSum).sum

/-- Both dense ids of a record index into the respective matrices. -/
def recInRange (us is : SparseIdSet) (n₁ n₂ : Nat) (r : Int × Int × ℚ) : Prop :=
  (us.ToDenseId r.1).toNat < n₁ ∧ (is.ToDenseId r.2.1).toNat < n₂

/-- Sum of the ratings of a record list. -/
def ratSum (l : List (Int × Int × ℚ)) : ℚ :=
  (l.map (fun r => r.2.2)).sum

theorem valueSum_Add (v : SparseVector) (i : Int) (x : ℚ) :
    (v.Add i x).valueSum = v.valueSum + x := by
  simp [SparseVector.Add, SparseVector.valueSum]

theorem pairs_Add_of_balanced {v : SparseVector} (h : v.Indices.length = v.Values.length)
    (i : Int) (x : ℚ) : (v.Add i x).pairs = v.pairs ++ [(i, x)] := by
  simp [SparseVector.Add, SparseVector.pairs, List.zip_append h]

theorem mem_zip_append {α β : Type} {p : α × β} :
    ∀ {I : List α} {V : List β} (I' : List α) (V' : List β),
      p ∈ I.zip V → p ∈ (I ++ I').zip (V ++ V') := by
  intro I
  induction I with
  | nil => intro V I' V' h; simp at h
  | cons a I0 ih =>
    intro V I' V' h
    cases V with
    | nil => simp at h
    | cons b V0 =>
      rcases List.mem_cons.mp h with rfl | hmem
      · exact List.mem_cons_self _ _
      · exact List.mem_cons_of_mem _ (ih I' V' hmem)

theorem mem_pairs_Add {v : SparseVector} {p : Int × ℚ} (h : p ∈ v.pairs)
    (i : Int) (x : ℚ) : p ∈ (v.Add i x).pairs :=
  mem_zip_append _ _ h

theorem getD_set_self {m : List SparseVector} {j : Nat} (h : j < m.length)
    (w : SparseVector) : (m.set j w).getD j SparseVector.empty = w := by
  rw [List.getD_eq_getElem?_getD, List.getElem?_set_self h]
  rfl

theorem getD_set_ne {m : List SparseVector} {i j : Nat} (h : i ≠ j)
    (w : SparseVector) : (m.set i w).getD j SparseVector.empty = m.getD j SparseVector.empty := by
  rw [List.getD_eq_getElem?_getD, List.getElem?_set_ne h, ← List.getD_eq_getElem?_getD]

theorem MatWF_getD {m : List SparseVector} (h : MatWF m) (j : Nat) :
    (m.getD j SparseVector.empty).Indices.length =
      (m.getD j SparseVector.empty).Values.length := by
  by_cases hj : j < m.length
  · rw [List.getD_eq_getElem _ _ hj]
    exact h _ (List.getElem_mem hj)
  · rw [List.getD_eq_default _ _ (Nat.le_of_not_lt hj)]
    rfl

theorem MatWF_set {m : List SparseVector} (h : MatWF m) {w : SparseVector}
    (hw : w.Indices.length = w.Values.length) (j : Nat) : MatWF (m.set j w) := by
  intro v hv
  rcases List.mem_or_eq_of_mem_set hv with hmem | rfl
  · exact h v hmem
  · exact hw

theorem sum_set_rat (l : List ℚ) (j : Nat) (x : ℚ) (h : j < l.length) :
    (l.set j x).sum = l.sum - l.getD j 0 + x := by
  induction l generalizing j with
  | nil => simp at h
  | cons a t ih =>
    cases j with
    | zero => simp [List.getD]; ring
    | succ j' =>
      simp only [List.set, List.sum_cons, List.getD_cons_succ]
      rw [ih j' (Nat.lt_of_succ_lt_succ h)]
      ring

theorem matSum_set {m : List SparseVector} {j : Nat} (h : j < m.length)
    (w : SparseVector) :
    matSum (m.set j w) = matSum m - (m.getD j SparseVector.empty).valueSum + w.valueSum := by
  unfold matSum
  rw [List.map_set, sum_set_rat _ _ _ (by simpa using h)]
  congr 2
  rw [List.getD_eq_getElem _ _ (by simpa using h), List.getElem_map,
    List.getD_eq_getElem _ _ h]

theorem pass2step_fst_length (us is : SparseIdSet)
    (mats : List SparseVector × List SparseVector) (r : Int × Int × ℚ) :
    (pass2step us is mats r).1.length = mats.1.length := by
  simp [pass2step]

theorem pass2step_snd_length (us is : SparseIdSet)
    (mats : List SparseVector × List SparseVector) (r : Int × Int × ℚ) :
    (pass2step us is mats r).2.length = mats.2.length := by
  simp [pass2step]

theorem pass2_fst_length (us is : SparseIdSet) (l : List (Int × Int × ℚ))
    (mats : List SparseVector × List SparseVector) :
    (pass2 us is l mats).1.length = mats.1.length := by
  induction l generalizing mats with
  | nil => rfl
  | cons r rest ih =>
    rw [pass2, ih (pass2step us is mats r), pass2step_fst_length]

theorem pass2_snd_length (us is : SparseIdSet) (l : List (Int × Int × ℚ))
    (mats : List SparseVector × List SparseVector) :
    (pass2 us is l mats).2.length = mats.2.length := by
  induction l generalizing mats with
  | nil => rfl
  | cons r rest ih =>
    rw [pass2, ih (pass2step us is mats r), pass2step_snd_length]

theorem pass2step_MatWF_fst {us is : SparseIdSet}
    {mats : List SparseVector × List SparseVector} (h : MatWF mats.1)
    (r : Int × Int × ℚ) : MatWF (pass2step us is mats r).1 := by
  apply MatWF_set h
  have hb := MatWF_getD h (us.ToDenseId r.1).toNat
  simp only [SparseVector.Add, List.length_append, List.length_cons, List.length_nil]
  omega

theorem pass2step_MatWF_snd {us is : SparseIdSet}
    {mats : List SparseVector × List SparseVector} (h : MatWF mats.2)
    (r : Int × Int × ℚ) : MatWF (pass2step us is mats r).2 := by
  apply MatWF_set h
  have hb := MatWF_getD h (is.ToDenseId r.2.1).toNat
  simp only [SparseVector.Add, List.length_append, List.length_cons, List.length_nil]
  omega

theorem pass2step_matSum_fst {us is : SparseIdSet}
    {mats : List SparseVector × List SparseVector} {r : Int × Int × ℚ}
    (h : (us.ToDenseId r.1).toNat < mats.1.length) :
    matSum (pass2step us is mats r).1 = matSum mats.1 + r.2.2 := by
  simp only [pass2step]
  rw [matSum_set h, valueSum_Add]
  ring

theorem pass2step_matSum_snd {us is : SparseIdSet}
    {mats : List SparseVector × List SparseVector} {r : Int × Int × ℚ}
    (h : (is.ToDenseId r.2.1).toNat < mats.2.length) :
    matSum (pass2step us is mats r).2 = matSum mats.2 + r.2.2 := by
  simp only [pass2step]
  rw [matSum_set h, valueSum_Add]
  ring

theorem pass2_matSum (us is : SparseIdSet) (l : List (Int × Int × ℚ)) :
    ∀ (mats : List SparseVector × List SparseVector),
      (∀ r ∈ l, recInRange us is mats.1.length mats.2.length r) →
      matSum (pass2 us is l mats).1 = matSum mats.1 + ratSum l ∧
      matSum (pass2 us is l mats).2 = matSum mats.2 + ratSum l := by
  induction l with
  | nil => intro mats _; simp [pass2, ratSum]
  | cons r rest ih =>
    intro mats hl
    have hr := hl r (List.mem_cons_self r rest)
    have hrest : ∀ r' ∈ rest,
        recInRange us is (pass2step us is mats r).1.length
          (pass2step us is mats r).2.length r' := by
      intro r' hr'
      rw [pass2step_fst_length, pass2step_snd_length]
      exact hl r' (List.mem_cons_of_mem r hr')
    rcases ih (pass2step us is mats r) hrest with ⟨ih1, ih2⟩
    rw [pass2, ih1, ih2, pass2step_matSum_fst hr.1, pass2step_matSum_snd hr.2]
    simp only [ratSum, List.map_cons, List.sum_cons]
    constructor <;> ring

theorem pass2step_pairs_mono_fst {us is : SparseIdSet}
    {mats : List SparseVector × List SparseVector} {r : Int × Int × ℚ}
    {j : Nat} {p : Int × ℚ} (h : p ∈ (mats.1.getD j SparseVector.empty).pairs) :
    p ∈ ((pass2step us is mats r).1.getD j SparseVector.empty).pairs := by
  simp only [pass2step]
  by_cases hj : (us.ToDenseId r.1).toNat = j
  · subst hj
    by_cases hlt : (us.ToDenseId r.1).toNat < mats.1.length
    · rw [getD_set_self hlt]
      exact mem_pairs_Add h _ _
    · rw [List.set_eq_of_length_le (Nat.le_of_not_lt hlt)]
      exact h
  · rw [getD_set_ne hj]
    exact h

theorem pass2step_pairs_mono_snd {us is : SparseIdSet}
    {mats : List SparseVector × List SparseVector} {r : Int × Int × ℚ}
    {j : Nat} {p : Int × ℚ} (h : p ∈ (mats.2.getD j SparseVector.empty).pairs) :
    p ∈ ((pass2step us is mats r).2.getD j SparseVector.empty).pairs := by
  simp only [pass2step]
  by_cases hj : (is.ToDenseId r.2.1).toNat = j
  · subst hj
    by_cases hlt : (is.ToDenseId r.2.1).toNat < mats.2.length
    · rw [getD_set_self hlt]
      exact mem_pairs_Add h _ _
    · rw [List.set_eq_of_length_le (Nat.le_of_not_lt hlt)]
      exact h
  · rw [getD_set_ne hj]
    exact h

theorem pass2_pairs_mono_fst (us is : SparseIdSet) (l : List (Int × Int × ℚ)) :
    ∀ {mats : List SparseVector × List SparseVector} {j : Nat} {p : Int × ℚ},
      p ∈ (mats.1.getD j SparseVector.empty).pairs →
      p ∈ ((pass2 us is l mats).1.getD j SparseVector.empty).pairs := by
  induction l with
  | nil => intro mats j p h; exact h
  | cons r rest ih => intro mats j p h; exact ih (pass2step_pairs_mono_fst h)

theorem pass2_pairs_mono_snd (us is : SparseIdSet) (l : List (Int × Int × ℚ)) :
    ∀ {mats : List SparseVector × List SparseVector} {j : Nat} {p : Int × ℚ},
      p ∈ (mats.2.getD j SparseVector.empty).pairs →
      p ∈ ((pass2 us is l mats).2.getD j SparseVector.empty).pairs := by
  induction l with
  | nil => intro mats j p h; exact h
  | cons r rest ih => intro mats j p h; exact ih (pass2step_pairs_mono_snd h)

theorem pass2_mem (us is : SparseIdSet) (l : List (Int × Int × ℚ)) :
    ∀ (mats : List SparseVector × List SparseVector),
      MatWF mats.1 → MatWF mats.2 →
      (∀ r' ∈ l, recInRange us is mats.1.length mats.2.length r') →
      ∀ r ∈ l,
        (is.ToDenseId r.2.1, r.2.2) ∈
          ((pass2 us is l mats).1.getD (us.ToDenseId r.1).toNat SparseVector.empty).pairs ∧
        (us.ToDenseId r.1, r.2.2) ∈
          ((pass2 us is l mats).2.getD (is.ToDenseId r.2.1).toNat SparseVector.empty).pairs := by
  induction l with
  | nil => intro mats _ _ _ r hr; cases hr
  | cons hd tl ih =>
    intro mats hw1 hw2 hl r hr
    have hhd := hl hd (List.mem_cons_self hd tl)
    rcases List.mem_cons.mp hr with rfl | htl
    · constructor
      · rw [pass2]
        apply pass2_pairs_mono_fst
        show _ ∈ ((pass2step us is mats r).1.getD (us.ToDenseId r.1).toNat
          SparseVector.empty).pairs
        simp only [pass2step]
        rw [getD_set_self hhd.1, pairs_Add_of_balanced (MatWF_getD hw1 _)]
        exact List.mem_append.mpr (Or.inr (List.mem_cons_self _ _))
      · rw [pass2]
        apply pass2_pairs_mono_snd
        show _ ∈ ((pass2step us is mats r).2.getD (is.ToDenseId r.2.1).toNat
          SparseVector.empty).pairs
        simp only [pass2step]
        rw [getD_set_self hhd.2, pairs_Add_of_balanced (MatWF_getD hw2 _)]
        exact List.mem_append.mpr (Or.inr (List.mem_cons_self _ _))
    · rw [pass2]
      apply ih (pass2step us is mats hd)
        (pass2step_MatWF_fst hw1 hd) (pass2step_MatWF_snd hw2 hd)
        ?_ r htl
      intro r' hr'
      rw [pass2step_fst_length, pass2step_snd_length]
      exact hl r' (List.mem_cons_of_mem hd hr')

theorem ToDenseId_toNat_lt {s : SparseIdSet} (hWF : s.WF) {k : Int}
    (h : (mapGet s.DenseIds k).isSome) : (s.ToDenseId k).toNat < s.Len := by
  rcases Option.isSome_iff_exists.mp h with ⟨v, hv⟩
  unfold SparseIdSet.ToDenseId
  rw [hv]
  exact (hWF k v hv).2

theorem NewDataSet_UserIdSet (t : Table) :
    (NewDataSet t).UserIdSet = (pass1 t.records SparseIdSet.empty SparseIdSet.empty).1 := rfl

theorem NewDataSet_ItemIdSet (t : Table) :
    (NewDataSet t).ItemIdSet = (pass1 t.records SparseIdSet.empty SparseIdSet.empty).2.1 := rfl

theorem NewDataSet_DenseUserIds (t : Table) :
    (NewDataSet t).DenseUserIds = (pass1 t.records SparseIdSet.empty SparseIdSet.empty).2.2.1 := rfl

theorem NewDataSet_DenseItemIds (t : Table) :
    (NewDataSet t).DenseItemIds = (pass1 t.records SparseIdSet.empty SparseIdSet.empty).2.2.2 := rfl

theorem NewDataSet_DenseUserRatings (t : Table) :
    (NewDataSet t).DenseUserRatings =
      (pass2 (NewDataSet t).UserIdSet (NewDataSet t).ItemIdSet t.records
        (NewDenseSparseMatrix (NewDataSet t).UserIdSet.Len,
         NewDenseSparseMatrix (NewDataSet t).ItemIdSet.Len)).1 := rfl

theorem NewDataSet_DenseItemRatings (t : Table) :
    (NewDataSet t).DenseItemRatings =
      (pass2 (NewDataSet t).UserIdSet (NewDataSet t).ItemIdSet t.records
        (NewDenseSparseMatrix (NewDataSet t).UserIdSet.Len,
         NewDenseSparseMatrix (NewDataSet t).ItemIdSet.Len)).2 := rfl

theorem NewDataSet_userSet_WF (t : Table) : (NewDataSet t).UserIdSet.WF := by
  rw [NewDataSet_UserIdSet, pass1_userSet]
  exact WF_addKeys WF_empty _

theorem NewDataSet_itemSet_WF (t : Table) : (NewDataSet t).ItemIdSet.WF := by
  rw [NewDataSet_ItemIdSet, pass1_itemSet]
  exact WF_addKeys WF_empty _

theorem NewDataSet_user_registered {t : Table} {r : Int × Int × ℚ}
    (h : r ∈ t.records) :
    (mapGet (NewDataSet t).UserIdSet.DenseIds r.1).isSome := by
  rw [NewDataSet_UserIdSet, pass1_userSet]
  exact isSome_mapGet_addKeys_of_mem (List.mem_map.mpr ⟨r, h, rfl⟩)

theorem NewDataSet_item_registered {t : Table} {r : Int × Int × ℚ}
    (h : r ∈ t.records) :
    (mapGet (NewDataSet t).ItemIdSet.DenseIds r.2.1).isSome := by
  rw [NewDataSet_ItemIdSet, pass1_itemSet]
  exact isSome_mapGet_addKeys_of_mem (List.mem_map.mpr ⟨r, h, rfl⟩)

theorem NewDataSet_recInRange (t : Table) :
    ∀ r ∈ t.records,
      recInRange (NewDataSet t).UserIdSet (NewDataSet t).ItemIdSet
        (NewDataSet t).UserIdSet.Len (NewDataSet t).ItemIdSet.Len r := by
  intro r hr
  exact ⟨ToDenseId_toNat_lt (NewDataSet_userSet_WF t) (NewDataSet_user_registered hr),
    ToDenseId_toNat_lt (NewDataSet_itemSet_WF t) (NewDataSet_item_registered hr)⟩

theorem matSum_NewDenseSparseMatrix (n : Nat) : matSum (NewDenseSparseMatrix n) = 0 := by
  unfold matSum NewDenseSparseMatrix
  rw [List.map_replicate, List.sum_replicate]
  simp [SparseVector.valueSum, SparseVector.empty]

theorem MatWF_NewDenseSparseMatrix (n : Nat) : MatWF (NewDenseSparseMatrix n) := by
  intro v hv
  rw [List.eq_of_mem_replicate hv]
  rfl

theorem NewDataSet_DenseUserIds_getD {t : Table} {i : Nat} (h : i < t.Len) :
    (NewDataSet t).DenseUserIds.getD i 0 =
      (NewDataSet t).UserIdSet.ToDenseId (t.Get i).1 := by
  rw [NewDataSet_DenseUserIds, pass1_DenseUserIds,
    List.getD_eq_getElem _ _ (by simpa [Table.Len] using h), List.getElem_map,
    Table.Get, List.getD_eq_getElem _ _ h]
  rfl

theorem NewDataSet_DenseItemIds_getD {t : Table} {i : Nat} (h : i < t.Len) :
    (NewDataSet t).DenseItemIds.getD i 0 =
      (NewDataSet t).ItemIdSet.ToDenseId (t.Get i).2.1 := by
  rw [NewDataSet_DenseItemIds, pass1_DenseItemIds,
    List.getD_eq_getElem _ _ (by simpa [Table.Len] using h), List.getElem_map,
    Table.Get, List.getD_eq_getElem _ _ h]
  rfl

/-- C5: after construction the positional arrays have the raw table's
length and the two rating matrices have exactly `UserCount` and
`ItemCount` entries. -/
theorem newDataSet_lengths (t : Table) :
    (NewDataSet t).DenseUserIds.length = t.Len ∧
    (NewDataSet t).DenseItemIds.length = t.Len ∧
    (NewDataSet t).DenseUserRatings.length = (NewDataSet t).UserCount ∧
    (NewDataSet t).DenseItemRatings.length = (NewDataSet t).ItemCount := by
  refine ⟨?_, ?_, ?_, ?_⟩
  · rw [NewDataSet_DenseUserIds, pass1_DenseUserIds, List.length_map]
    rfl
  · rw [NewDataSet_DenseItemIds, pass1_DenseItemIds, List.length_map]
    rfl
  · rw [NewDataSet_DenseUserRatings, pass2_fst_length]
    simp [NewDenseSparseMatrix, DataSet.UserCount]
  · rw [NewDataSet_DenseItemRatings, pass2_snd_length]
    simp [NewDenseSparseMatrix, DataSet.ItemCount]

/-- C2: total rating mass is conserved — the sum over all user vectors and
the sum over all item vectors both equal the sum of the raw table's
ratings, for every table including the empty one. -/
theorem newDataSet_conservation (t : Table) :
    matSum (NewDataSet t).DenseUserRatings = t.ratingSum ∧
    matSum (NewDataSet t).DenseItemRatings = t.ratingSum := by
  have hrange : ∀ r ∈ t.records,
      recInRange (NewDataSet t).UserIdSet (NewDataSet t).ItemIdSet
        (NewDenseSparseMatrix (NewDataSet t).UserIdSet.Len,
         NewDenseSparseMatrix (NewDataSet t).ItemIdSet.Len).1.length
        (NewDenseSparseMatrix (NewDataSet t).UserIdSet.Len,
         NewDenseSparseMatrix (NewDataSet t).ItemIdSet.Len).2.length r := by
    intro r hr
    simpa [NewDenseSparseMatrix] using NewDataSet_recInRange t r hr
  rcases pass2_matSum (NewDataSet t).UserIdSet (NewDataSet t).ItemIdSet t.records
    (NewDenseSparseMatrix (NewDataSet t).UserIdSet.Len,
     NewDenseSparseMatrix (NewDataSet t).ItemIdSet.Len) hrange with ⟨h1, h2⟩
  constructor
  · rw [NewDataSet_DenseUserRatings, h1, matSum_NewDenseSparseMatrix]
    simp [ratSum, Table.ratingSum]
  · rw [NewDataSet_DenseItemRatings, h2, matSum_NewDenseSparseMatrix]
    simp [ratSum, Table.ratingSum]

/-- C1: for every record position, the user's vector holds the pair
(dense item id, rating) and the item's vector holds the pair
(dense user id, rating). -/
theorem newDataSet_dual_membership (t : Table) (i : Nat) (h : i < t.Len) :
    ((NewDataSet t).DenseItemIds.getD i 0, (t.Get i).2.2) ∈
      ((NewDataSet t).DenseUserRatings.getD
        ((NewDataSet t).DenseUserIds.getD i 0).toNat SparseVector.empty).pairs ∧
    ((NewDataSet t).DenseUserIds.getD i 0, (t.Get i).2.2) ∈
      ((NewDataSet t).DenseItemRatings.getD
        ((NewDataSet t).DenseItemIds.getD i 0).toNat SparseVector.empty).pairs := by
  have hmem : t.Get i ∈ t.records := by
    rw [Table.Get, List.getD_eq_getElem _ _ h]
    exact List.getElem_mem h
  have hrange : ∀ r' ∈ t.records,
      recInRange (NewDataSet t).UserIdSet (NewDataSet t).ItemIdSet
        (NewDenseSparseMatrix (NewDataSet t).UserIdSet.Len,
         NewDenseSparseMatrix (NewDataSet t).ItemIdSet.Len).1.length
        (NewDenseSparseMatrix (NewDataSet t).UserIdSet.Len,
         NewDenseSparseMatrix (NewDataSet t).ItemIdSet.Len).2.length r' := by
    intro r' hr'
    simpa [NewDenseSparseMatrix] using NewDataSet_recInRange t r' hr'
  have hmain := pass2_mem (NewDataSet t).UserIdSet (NewDataSet t).ItemIdSet t.records
    (NewDenseSparseMatrix (NewDataSet t).UserIdSet.Len,
     NewDenseSparseMatrix (NewDataSet t).ItemIdSet.Len)
    (MatWF_NewDenseSparseMatrix _) (MatWF_NewDenseSparseMatrix _)
    hrange (t.Get i) hmem
  rw [NewDataSet_DenseUserIds_getD h, NewDataSet_DenseItemIds_getD h,
    NewDataSet_DenseUserRatings, NewDataSet_DenseItemRatings]
  exact hmain

/-- Written from the claim wording, for comparison with the code: the
rating associated with key `k` once duplicates collapse with
later-in-the-list entries taking precedence. -/
def lastAssign (k : Int) : List (Int × ℚ) → Option ℚ
  | [] => none
  | p :: rest =>
    match lastAssign k rest with
    | some v => some v
    | none => if p.1 = k then some p.2 else none

theorem mapGet_eq_none_of_not_any {β : Type} {m : List (Int × β)} {k : Int}
    (h : m.any (fun p => p.1 = k) = false) : mapGet m k = none := by
  induction m with
  | nil => rfl
  | cons p rest ih =>
    rw [List.any_cons, Bool.or_eq_false_iff] at h
    have hp : ¬ p.1 = k := by simpa using h.1
    simp only [mapGet, hp, if_false]
    exact ih h.2

theorem mapGet_map_replace_of_any {β : Type} {m : List (Int × β)} {k : Int} {v : β}
    (h : m.any (fun p => p.1 = k) = true) :
    mapGet (m.map (fun p => if p.1 = k then (k, v) else p)) k = some v := by
  induction m with
  | nil => simp at h
  | cons p rest ih =>
    by_cases hp : p.1 = k
    · simp [mapGet, hp]
    · rw [List.any_cons] at h
      simp only [hp, decide_False, Bool.false_or] at h
      simp only [List.map_cons, hp, if_false, mapGet, if_neg hp]
      exact ih h

theorem mapGet_map_replace_ne {β : Type} {m : List (Int × β)} {k k' : Int} {v : β}
    (hne : k ≠ k') :
    mapGet (m.map (fun p => if p.1 = k then (k, v) else p)) k' = mapGet m k' := by
  induction m with
  | nil => rfl
  | cons p rest ih =>
    by_cases hp : p.1 = k
    · simp only [List.map_cons, hp, if_true, mapGet, if_neg hne]
      rw [ih]
    · simp only [List.map_cons, hp, if_false, mapGet]
      by_cases hk' : p.1 = k'
      · simp [hk']
      · simp only [hk', if_false]
        exact ih

theorem mapGet_goMapInsert {β : Type} (m : List (Int × β)) (k k' : Int) (v : β) :
    mapGet (goMapInsert m k v) k' = if k = k' then some v else mapGet m k' := by
  unfold goMapInsert
  by_cases hany : m.any (fun p => p.1 = k) = true
  · rw [if_pos hany]
    by_cases hkk : k = k'
    · subst hkk
      rw [if_pos rfl]
      exact mapGet_map_replace_of_any hany
    · rw [if_neg hkk]
      exact mapGet_map_replace_ne hkk
  · rw [if_neg hany]
    have hnone := mapGet_eq_none_of_not_any (Bool.eq_false_iff.mpr hany)
    by_cases hkk : k = k'
    · subst hkk
      rw [if_pos rfl, mapGet_append_of_none hnone]
      simp [mapGet]
    · rw [if_neg hkk]
      cases hm : mapGet m k' with
      | some w => exact mapGet_append_of_some hm
      | none =>
        rw [mapGet_append_of_none hm]
        simp [mapGet, hkk]

theorem mapGet_foldl_goMapInsert (f : Int × ℚ → Int) (k : Int)
    (ps : List (Int × ℚ)) :
    ∀ (m0 : List (Int × ℚ)),
      mapGet (ps.foldl (fun m p => goMapInsert m (f p) p.2) m0) k =
        match lastAssign k (ps.map (fun p => (f p, p.2))) with
        | some v => some v
        | none => mapGet m0 k := by
  induction ps with
  | nil => intro m0; rfl
  | cons p rest ih =>
    intro m0
    rw [List.foldl_cons, ih (goMapInsert m0 (f p) p.2)]
    simp only [List.map_cons]
    cases hla : lastAssign k (rest.map (fun p => (f p, p.2))) with
    | some v => simp [lastAssign, hla]
    | none =>
      simp only [lastAssign, hla]
      rw [mapGet_goMapInsert]
      by_cases hp : f p = k
      · simp [hp]
      · simp [hp]

/-- C3: for a registered user, `GetUserRatingsSet` materializes the user's
vector into a sparse-item-id-keyed map; looking up any key returns the
value of the latest vector entry whose converted item id matches, so a
later duplicate overwrites an earlier one. -/
theorem getUserRatingsSet_lastWins (d : DataSet) (userId k : Int)
    (hreg : (mapGet d.UserIdSet.DenseIds userId).isSome)
    (hidx : ∀ p ∈ (d.DenseUserRatings.getD (d.UserIdSet.ToDenseId userId).toNat
        SparseVector.empty).pairs,
      0 ≤ p.1 ∧ p.1.toNat < d.ItemIdSet.SparseIds.length) :
    mapGet (d.GetUserRatingsSet userId) k =
      lastAssign k
        (((d.DenseUserRatings.getD (d.UserIdSet.ToDenseId userId).toNat
            SparseVector.empty).pairs).map
          (fun p => (d.ItemIdSet.ToSparseId p.1, p.2))) := by
  simp only [DataSet.GetUserRatingsSet]
  refine (mapGet_foldl_goMapInsert (fun p => d.ItemIdSet.ToSparseId p.1) k _ []).trans ?_
  cases lastAssign k
    (((d.DenseUserRatings.getD (d.UserIdSet.ToDenseId userId).toNat
        SparseVector.empty).pairs).map
      (fun p => (d.ItemIdSet.ToSparseId p.1, p.2))) <;> rfl

/-- A data set whose single user's vector holds a duplicated dense item
index, exercising the duplicate-collapse path of `GetUserRatingsSet`. -/
def dupDS : DataSet :=
  { table := ⟨[]⟩
    GlobalMean := none
    DenseUserIds := []
    DenseItemIds := []
    DenseUserRatings := [⟨[0, 0], [5, 7]⟩]
    DenseItemRatings := []
    UserIdSet := ⟨[(9, 0)], [9]⟩
    ItemIdSet := ⟨[(0, 3)], [3]⟩ }

/-- Witness for C3 at a concrete input with a duplicate index: the later
value 7 is the one the returned map holds. -/
theorem getUserRatingsSet_lastWins_witness :
    ((mapGet dupDS.UserIdSet.DenseIds 9).isSome ∧
      ∀ p ∈ (dupDS.DenseUserRatings.getD (dupDS.UserIdSet.ToDenseId 9).toNat
          SparseVector.empty).pairs,
        0 ≤ p.1 ∧ p.1.toNat < dupDS.ItemIdSet.SparseIds.length) ∧
    mapGet (dupDS.GetUserRatingsSet 9) 3 = some 7 := by
  refine ⟨⟨by decide, by decide⟩, ?_⟩
  rw [getUserRatingsSet_lastWins dupDS 9 3 (by decide) (by decide)]
  decide

/-- C4 amended: looking up an id that was never registered silently
returns the zero value 0, indistinguishable from the first registered
dense id; no failure is signalled. -/
theorem toDenseId_unregistered (s : SparseIdSet) (k : Int)
    (h : mapGet s.DenseIds k = none) : s.ToDenseId k = 0 := by
  unfold SparseIdSet.ToDenseId
  rw [h]
  rfl

/-- Counterexample for C4 as stated: with only the id 7 registered, the
unregistered id 5 is looked up without any failure signal and yields the
zero value 0 — the very dense id that belongs to 7. -/
theorem toDenseId_unregistered_counterexample :
    mapGet (SparseIdSet.empty.Add 7).DenseIds 5 = none ∧
    (SparseIdSet.empty.Add 7).ToDenseId 5 = 0 ∧
    (SparseIdSet.empty.Add 7).ToDenseId 5 = (SparseIdSet.empty.Add 7).ToDenseId 7 := by
  decide

/-- Witness for the amended C4 at a concrete unregistered id. -/
theorem toDenseId_unregistered_witness :
    mapGet (SparseIdSet.empty.Add 7).DenseIds 5 = none ∧
    (SparseIdSet.empty.Add 7).ToDenseId 5 = 0 :=
  ⟨by decide, toDenseId_unregistered (SparseIdSet.empty.Add 7) 5 (by decide)⟩

/-- Counterexample for C7 as stated: for the empty raw table the stored
global mean is the division-by-zero artifact (NaN, embedded as `none`),
not an explicitly defined value. -/
theorem globalMean_empty_counterexample : (NewDataSet ⟨[]⟩).GlobalMean = none := by
  decide

/-- C7 amended: for every non-empty raw table the stored global mean is
the arithmetic average of all ratings, computed once at construction; for
the empty table it is the NaN artifact of the float division. -/
theorem globalMean_nonempty (t : Table) (h : t.records ≠ []) :
    (NewDataSet t).GlobalMean = some (t.ratingSum / (t.records.length : ℚ)) := by
  show t.Mean = _
  unfold Table.Mean
  rw [if_neg (fun hc => h (List.length_eq_zero.mp hc))]

/-- Witness for the amended C7 on a one-record table. -/
theorem globalMean_nonempty_witness :
    (⟨[(1, 2, 3)]⟩ : Table).records ≠ [] ∧
    (NewDataSet ⟨[(1, 2, 3)]⟩).GlobalMean = some 3 := by
  refine ⟨by decide, ?_⟩
  rw [globalMean_nonempty ⟨[(1, 2, 3)]⟩ (by decide)]
  norm_num [Table.ratingSum]

/-- C6: at every valid position, `GetDense` returns the positional dense
ids together with the rating of the raw record at that position, and those
dense ids are exactly the id sets' translations of the record's sparse
ids. -/
theorem getDense_spec (t : Table) (i : Nat) (h : i < t.Len) :
    (NewDataSet t).GetDense i =
      ((NewDataSet t).DenseUserIds.getD i 0, (NewDataSet t).DenseItemIds.getD i 0,
        ((NewDataSet t).Get i).2.2) ∧
    (NewDataSet t).DenseUserIds.getD i 0 =
      (NewDataSet t).UserIdSet.ToDenseId ((NewDataSet t).Get i).1 ∧
    (NewDataSet t).DenseItemIds.getD i 0 =
      (NewDataSet t).ItemIdSet.ToDenseId ((NewDataSet t).Get i).2.1 := by
  exact ⟨rfl, NewDataSet_DenseUserIds_getD h, NewDataSet_DenseItemIds_getD h⟩

/-- Witness for C6 on the concrete table [(1, 7, 3)] at position 0. -/
theorem getDense_spec_witness :
    0 < Table.Len ⟨[(1, 7, 3)]⟩ ∧
    ((NewDataSet ⟨[(1, 7, 3)]⟩).GetDense 0 =
      ((NewDataSet ⟨[(1, 7, 3)]⟩).DenseUserIds.getD 0 0,
        (NewDataSet ⟨[(1, 7, 3)]⟩).DenseItemIds.getD 0 0,
        ((NewDataSet ⟨[(1, 7, 3)]⟩).Get 0).2.2) ∧
     (NewDataSet ⟨[(1, 7, 3)]⟩).DenseUserIds.getD 0 0 =
      (NewDataSet ⟨[(1, 7, 3)]⟩).UserIdSet.ToDenseId ((NewDataSet ⟨[(1, 7, 3)]⟩).Get 0).1 ∧
     (NewDataSet ⟨[(1, 7, 3)]⟩).DenseItemIds.getD 0 0 =
      (NewDataSet ⟨[(1, 7, 3)]⟩).ItemIdSet.ToDenseId ((NewDataSet ⟨[(1, 7, 3)]⟩).Get 0).2.1) :=
  ⟨by decide, getDense_spec ⟨[(1, 7, 3)]⟩ 0 (by decide)⟩

/-- Witness for C1 on the concrete table [(1, 7, 3), (1, 9, 4)] at
position 0. -/
theorem newDataSet_dual_membership_witness :
    0 < Table.Len ⟨[(1, 7, 3), (1, 9, 4)]⟩ ∧
    (((NewDataSet ⟨[(1, 7, 3), (1, 9, 4)]⟩).DenseItemIds.getD 0 0,
        ((⟨[(1, 7, 3), (1, 9, 4)]⟩ : Table).Get 0).2.2) ∈
      ((NewDataSet ⟨[(1, 7, 3), (1, 9, 4)]⟩).DenseUserRatings.getD
        ((NewDataSet ⟨[(1, 7, 3), (1, 9, 4)]⟩).DenseUserIds.getD 0 0).toNat
        SparseVector.empty).pairs ∧
     ((NewDataSet ⟨[(1, 7, 3), (1, 9, 4)]⟩).DenseUserIds.getD 0 0,
        ((⟨[(1, 7, 3), (1, 9, 4)]⟩ : Table).Get 0).2.2) ∈
      ((NewDataSet ⟨[(1, 7, 3), (1, 9, 4)]⟩).DenseItemRatings.getD
        ((NewDataSet ⟨[(1, 7, 3), (1, 9, 4)]⟩).DenseItemIds.getD 0 0).toNat
        SparseVector.empty).pairs) :=
  ⟨by decide, newDataSet_dual_membership ⟨[(1, 7, 3), (1, 9, 4)]⟩ 0 (by decide)⟩

/-- The DataSet literal of the repository's own
`TestDataSet_GetUserRatingsSet`: item dense-to-sparse pairs
(0,0), (2,1), (4,2), (6,3) and user dense id 0 holding (1, 10.0), (2, 20.0). -/
def scenarioC : DataSet :=
  { table := ⟨[]⟩
    GlobalMean := none
    DenseUserIds := []
    DenseItemIds := []
    DenseUserRatings := [⟨[1, 2], [10, 20]⟩]
    DenseItemRatings := []
    UserIdSet := ⟨[(2, 0)], [2]⟩
    ItemIdSet := ⟨[(0, 0), (2, 1), (4, 2), (6, 3)], [0, 2, 4, 6]⟩ }

/-- C8: on the test's data set, `GetUserRatingsSet 2` returns exactly the
map with bindings 2 → 10 and 4 → 20. -/
theorem scenarioC_getUserRatingsSet :
    scenarioC.GetUserRatingsSet 2 = [(2, 10), (4, 20)] := by
  decide

/-- C10 evaluated at the failing input: the line "1,2" splits into exactly
two fields, so it passes the `len(fields) < 2` skip guard, yet the read of
`fields[2]` is out of range — in Go an index-out-of-range panic, embedded
as `none`. -/
theorem csvStep_two_fields_out_of_range :
    (goSplit ("1,2") (",")).length = 2 ∧
    ¬ ((goSplit ("1,2") (",")).length < 2) ∧
    csvStep (",") (false, [], [], []) ("1,2") = none := by
  decide

end Gorse
